import Mathlib

/-!
Verification of the `magento-graphql-docs-mcp` ingestion/parsing pipeline and
query layer.  The definitions below are a shallow embedding of
`src/magento_graphql_docs_mcp/parser.py`, `ingest.py`, `server.py` and
`config.py`; each definition's doc comment names the Python function it embeds.

Modelling conventions:
* Python strings are Lean `String`s; the scanning code works on `List Char`
  (Python indexes strings/lists by position, which Lean kernel evaluation
  handles best on character lists).
* Machine-level details that no claim depends on are modelled by stated
  stand-ins: the SHA-256 document id is replaced by the (equally injective)
  relative path itself, and `datetime.fromtimestamp(t).isoformat()` by an
  injective rendering of the integer timestamp `t`.
* Python `set` iteration order is unspecified; `list(set(xs))` is modelled as
  first-occurrence deduplication.  No claim below depends on the order chosen.
-/

/-- Python whitespace set used by `str.strip` / `str.split` / regex `\s`:
space, tab, newline, carriage return, vertical tab, form feed. -/
def isWS (c : Char) : Bool :=
  c = ' ' || c = '\t' || c = '\n' || c = '\r' || c = '\x0b' || c = '\x0c'

/-- Regex `\w`: ASCII letters, digits and underscore (all source strings are
ASCII). -/
def isWordChar (c : Char) : Bool :=
  c.isAlphanum || c = '_'

/-- The backtick character (written via its code point). -/
def backtick : Char := Char.ofNat 96

/-- Python `str.strip()`. -/
def strip (l : List Char) : List Char :=
  ((l.dropWhile isWS).reverse.dropWhile isWS).reverse

/-- Python `str.split('\n')` (keeps empty chunks; `""` yields `[""]`). -/
def splitLines : List Char → List (List Char)
  | [] => [[]]
  | c :: rest =>
    if c = '\n' then [] :: splitLines rest
    else
      match splitLines rest with
      | [] => [[c]]
      | l :: ls => (c :: l) :: ls

/-- `(l.dropWhile p).length ≤ l.length` (termination helper). -/
theorem dropWhile_len_le (p : Char → Bool) : ∀ l : List Char,
    (l.dropWhile p).length ≤ l.length
  | [] => Nat.le_refl _
  | c :: rest => by
    by_cases h : p c
    · simp [List.dropWhile, h]
      exact Nat.le_succ_of_le (dropWhile_len_le p rest)
    · simp [List.dropWhile, h]

/-- Substring test on character lists (Python `needle in hay`,
SQL `LIKE '%needle%'` after case folding). -/
def containsSeq (needle : List Char) : List Char → Bool
  | [] => needle.isEmpty
  | c :: rest => needle.isPrefixOf (c :: rest) || containsSeq needle rest

/-- Python `' '.join(parts)`. -/
def join_sp : List String → String
  | [] => ""
  | [a] => a
  | a :: rest => a ++ " " ++ join_sp rest

/-- First-occurrence deduplication (seen-set loop); models Python
`list(set(xs))` (whose order is unspecified — see the file header). -/
def dedup_first_go : List String → List String → List String
  | [], _ => []
  | a :: rest, seen =>
    if a ∈ seen then dedup_first_go rest seen
    else a :: dedup_first_go rest (a :: seen)

def dedup_first (l : List String) : List String := dedup_first_go l []

-- Configuration defaults from `config.py` (environment overrides absent).

/-- `config.DB_TOP_K` (default `5`). -/
def DB_TOP_K : Nat := 5

/-- `config.SEARCH_RESULT_MULTIPLIER` (`2`). -/
def SEARCH_RESULT_MULTIPLIER : Nat := 2

/-- `config.MAX_FIELDS_PER_ELEMENT` (default `20`). -/
def MAX_FIELDS_PER_ELEMENT : Nat := 20

-- Entity model (`parser.py`, pydantic models).

/-- `parser.Document`.  `id` is `sha256(file_path)` in the source — an
injective, deterministic key for the relative path; it is modelled by the
(equally injective) path itself.  `last_modified` is the file's mtime. -/
structure Document where
  id : String
  file_path : String
  title : String
  description : Option String
  keywords : List String
  category : String
  subcategory : Option String
  content_type : String
  searchable_text : String
  headers : List String
  last_modified : Nat
  content_md : String
deriving DecidableEq

/-- `parser.CodeBlock`. -/
structure CodeBlock where
  document_id : String
  language : String
  code : String
  context : Option String
  line_number : Nat
deriving DecidableEq

/-- `parser.GraphQLElement`. -/
structure GraphQLElement where
  document_id : String
  element_type : String
  name : String
  fields : List String
  parameters : List String
  return_type : Option String
  description : Option String
  searchable_text : String
deriving DecidableEq

-- `parser.MarkdownDocParser.clean_content` machinery.

/-- Split a character list at the first run of three backticks:
`breakFence l = some (pre, post)` when `l = pre ++ "```" ++ post` with no
fence inside `pre`. -/
def breakFence : List Char → Option (List Char × List Char)
  | a :: b :: c :: rest =>
    if a = backtick ∧ b = backtick ∧ c = backtick then some ([], rest)
    else
      match breakFence (b :: c :: rest) with
      | some (pre, post) => some (a :: pre, post)
      | none => none
  | _ => none

theorem breakFence_post_lt : ∀ l pre post, breakFence l = some (pre, post) →
    post.length < l.length := by
  intro l
  induction l with
  | nil => intro pre post h; simp [breakFence] at h
  | cons a rest ih =>
    intro pre post h
    match rest with
    | [] => simp [breakFence] at h
    | [b] => simp [breakFence] at h
    | b :: c :: rest' =>
      rw [breakFence] at h
      split at h
      · simp only [Option.some.injEq, Prod.mk.injEq] at h
        simp only [← h.2, List.length_cons]
        omega
      · revert h
        cases hb : breakFence (b :: c :: rest') with
        | none => intro h; exact absurd h (by simp)
        | some pq =>
          intro h
          simp only [Option.some.injEq] at h
          have := ih pq.1 pq.2 (by rw [hb])
          have hpost : post = pq.2 := by
            cases pq; cases h; rfl
          subst hpost
          simp only [List.length_cons] at *
          omega

/-- `re.sub(r'```[\s\S]*?```', '', markdown)`: drop each shortest
fence-delimited span; an unmatched trailing opening fence is kept.  (`fuel`
only bounds the recursion — each step strictly shortens the input, so the
wrapper's `l.length` is never exhausted; structural recursion on `fuel`
keeps the function kernel-reducible.) -/
def remove_code_fences_go : Nat → List Char → List Char
  | 0, l => l
  | fuel + 1, l =>
    match breakFence l with
    | none => l
    | some (pre, rest) =>
      match breakFence rest with
      | none => l
      | some (_, rest2) => pre ++ remove_code_fences_go fuel rest2

def remove_code_fences (l : List Char) : List Char :=
  remove_code_fences_go l.length l

/-- Split at the first occurrence of character `t`:
`breakAt t l = (pre, some post)` when `l = pre ++ [t] ++ post`, `t ∉ pre`. -/
def breakAt (t : Char) : List Char → List Char × Option (List Char)
  | [] => ([], none)
  | c :: rest =>
    if c = t then ([], some rest)
    else
      let (pre, post) := breakAt t rest
      (c :: pre, post)

theorem breakAt_post_lt : ∀ (t : Char) l pre post,
    breakAt t l = (pre, some post) → post.length < l.length := by
  intro t l
  induction l with
  | nil => intro pre post h; simp [breakAt] at h
  | cons c rest ih =>
    intro pre post h
    rw [breakAt] at h
    split at h
    · simp only [Prod.mk.injEq, Option.some.injEq] at h
      simp [← h.2]
    · simp only [Prod.mk.injEq] at h
      have := ih (breakAt t rest).1 post ?_
      · simp only [List.length_cons]; omega
      · rcases h with ⟨h1, h2⟩
        rcases hb : breakAt t rest with ⟨p, q⟩
        simp [hb] at h2 ⊢
        rw [← h2]

/-- `re.sub(r'`[^`]+`', '', content)`: drop each backtick pair with a
non-empty backtick-free body, scanning left to right (fuel-bounded as
above; every step strictly shortens the input). -/
def remove_inline_code_go : Nat → List Char → List Char
  | 0, l => l
  | _, [] => []
  | fuel + 1, c :: rest =>
    if c = backtick then
      match breakAt backtick rest with
      | (content, some rest2) =>
        if content.isEmpty then c :: remove_inline_code_go fuel rest
        else remove_inline_code_go fuel rest2
      | (_, none) => c :: rest
    else c :: remove_inline_code_go fuel rest

def remove_inline_code (l : List Char) : List Char :=
  remove_inline_code_go l.length l

/-- `re.sub(r'\[([^\]]+)\]\(([^\)]+)\)', r'\1', content)`: flatten markdown
links to their label text; on a failed match the scan advances one character,
exactly as the regex engine does (fuel-bounded as above). -/
def flatten_links_go : Nat → List Char → List Char
  | 0, l => l
  | _, [] => []
  | fuel + 1, c :: rest =>
    if c = '[' then
      match breakAt ']' rest with
      | (label, some ('(' :: rest3)) =>
        match breakAt ')' rest3 with
        | (url, some rest4) =>
          if label.isEmpty || url.isEmpty then c :: flatten_links_go fuel rest
          else label ++ flatten_links_go fuel rest4
        | (_, none) => c :: flatten_links_go fuel rest
      | (_, some _) => c :: flatten_links_go fuel rest
      | (_, none) => c :: flatten_links_go fuel rest
    else c :: flatten_links_go fuel rest

def flatten_links (l : List Char) : List Char :=
  flatten_links_go l.length l

/-- Python `str.split()` (split on whitespace runs, dropping empties;
fuel-bounded as above). -/
def split_words_go : Nat → List Char → List (List Char)
  | 0, _ => []
  | _, [] => []
  | fuel + 1, c :: rest =>
    if isWS c then split_words_go fuel rest
    else
      (c :: rest.takeWhile (fun d => !isWS d)) ::
        split_words_go fuel (rest.dropWhile (fun d => !isWS d))

def split_words (l : List Char) : List (List Char) :=
  split_words_go l.length l

/-- Words joined by single spaces. -/
def join_words : List (List Char) → List Char
  | [] => []
  | [w] => w
  | w :: ws => w ++ ' ' :: join_words ws

/-- `' '.join(content.split())` — collapse all whitespace runs. -/
def squeeze_ws (l : List Char) : List Char :=
  join_words (split_words l)

/-- `parser.MarkdownDocParser.clean_content`. -/
def clean_content (markdown : String) : String :=
  String.mk (squeeze_ws (flatten_links (remove_inline_code
    (remove_code_fences markdown.toList))))

-- `parser.MarkdownDocParser`: per-document extraction.

/-- `parser.extract_category_from_path` on the relative path's segments:
one segment ⇒ `("root", none)`; the category is the first segment and the
subcategory the second, present only with more than two segments.  (An empty
segment list cannot arise from a real file; the model returns `("", none)`.) -/
def extract_category_from_path : List String → String × Option String
  | [] => ("", none)
  | [_] => ("root", none)
  | [c, _] => (c, none)
  | c :: s :: _ :: _ => (c, some s)

/-- Lower-case a character list (Python `str.lower`, ASCII). -/
def toLowerChars (l : List Char) : List Char := l.map Char.toLower

/-- `parser.determine_content_type`. -/
def determine_content_type (category : String) (rel_path : String) : String :=
  if category = "schema" then "schema"
  else if category = "tutorials" then "tutorial"
  else if category = "develop" ∨ category = "usage" then "guide"
  else if containsSeq "reference".toList (toLowerChars rel_path.toList) then "reference"
  else "guide"

/-- `parser.extract_first_header`: first stripped line starting with `#`,
with leading `#`s and whitespace removed. -/
def extract_first_header (markdown : String) : Option String :=
  (splitLines markdown.toList).findSome? fun l =>
    let t := strip l
    if t.head? = some '#' then
      some (String.mk (strip (t.dropWhile (fun c => c = '#'))))
    else none

/-- `parser.extract_headers`: all non-empty header texts in order. -/
def extract_headers (markdown : String) : List String :=
  (splitLines markdown.toList).filterMap fun l =>
    let t := strip l
    if t.head? = some '#' then
      let h := strip (t.dropWhile (fun c => c = '#'))
      if h.isEmpty then none else some (String.mk h)
    else none

/-- `parser.build_searchable_text`: title, description, keywords, headers and
cleaned body, empties skipped, joined by single spaces (`" ".join(filter(None,
parts))`; the Python truthiness guards on description/keywords only skip
values the filter removes anyway). -/
def build_searchable_text (title : String) (description : Option String)
    (content : String) (keywords : List String) (headers : List String) :
    String :=
  let parts :=
    title :: (description.toList ++ keywords ++ headers ++ [clean_content content])
  join_sp (parts.filter (fun s => s ≠ ""))

-- `parser.MarkdownDocParser.extract_code_blocks` / `extract_context`.

/-- Loop body of `parser.extract_context`: scan indices
`start_idx, start_idx-1, …` (at most 5, never below 0 — `steps` is passed as
`min 5 (start_idx+1)`), collecting stripped non-empty non-heading lines in
original order and stopping at a blank line or heading once something was
collected. -/
def context_scan (lines : List (List Char)) : Nat → Nat → List String → List String
  | _, 0, acc => acc
  | i, steps + 1, acc =>
    let line := strip (lines.getD i [])
    if line ≠ [] ∧ line.head? ≠ some '#' then
      context_scan lines (i - 1) steps (String.mk line :: acc)
    else if acc ≠ [] then acc
    else context_scan lines (i - 1) steps acc

/-- `parser.extract_context(lines, start_idx)`.  The call site always passes
`start_idx ≥ 0`, so the `start_idx < 0 ⇒ None` guard of the source is
unreachable and the model takes a `Nat`. -/
def extract_context (lines : List (List Char)) (start_idx : Nat) : Option String :=
  let cl := context_scan lines start_idx (min 5 (start_idx + 1)) []
  if cl.isEmpty then none else some (join_sp cl)

/-- A line whose stripped form starts with three backticks
(`line.strip().startswith('```')`). -/
def isFenceLine (l : List Char) : Bool :=
  match strip l with
  | a :: b :: c :: _ => a = backtick && b = backtick && c = backtick
  | _ => false

/-- Join lines with newlines (`'\n'.join(code_lines)`). -/
def join_nl : List (List Char) → List Char
  | [] => []
  | [l] => l
  | l :: ls => l ++ '\n' :: join_nl ls

/-- Main loop of `parser.extract_code_blocks`, at absolute line index `i`:
on a fence line take the tag after the backticks as language (lower-cased,
`"text"` when empty), collect lines up to the closing fence as the block body,
and compute the context from index `start_line - 2` — which is the index of
the opening fence line itself (`i` was already advanced past the fence when
`start_line = i + 1` is taken).  Fuel-bounded as above. -/
def extract_code_blocks_from (lines : List (List Char)) (doc_id : String) :
    Nat → Nat → List CodeBlock
  | 0, _ => []
  | fuel + 1, i =>
    if i < lines.length then
      let line := lines.getD i []
      if isFenceLine line then
        let language0 := toLowerChars (strip ((strip line).drop 3))
        let language := if language0.isEmpty then "text" else String.mk language0
        let code_lines := (lines.drop (i + 1)).takeWhile (fun l => !isFenceLine l)
        let start_line := i + 2
        let code := String.mk (join_nl code_lines)
        let context := extract_context lines (start_line - 2)
        { document_id := doc_id, language := language, code := code,
          context := context, line_number := start_line } ::
          extract_code_blocks_from lines doc_id fuel (i + 1 + code_lines.length + 1)
      else extract_code_blocks_from lines doc_id fuel (i + 1)
    else []

/-- `parser.extract_code_blocks(markdown, doc_id)`.  The scan starts at index
0 with fuel `lines.length`; every step advances the index by at least one, so
the fuel is never exhausted. -/
def extract_code_blocks (markdown : String) (doc_id : String) : List CodeBlock :=
  let lines := splitLines markdown.toList
  extract_code_blocks_from lines doc_id lines.length 0

-- `parser.MarkdownDocParser.extract_graphql_elements` machinery.

/-- `re.search(kw + r'\s+(\w+)', code)`: find the first occurrence of the
literal keyword followed by at least one whitespace and a word run; return
the word run.  (No `\b` anchors the keyword, exactly as in the source.) -/
def kwSearch (kw : List Char) : List Char → Option String
  | [] => none
  | c :: rest =>
    match
      (if kw.isPrefixOf (c :: rest) then
        let after := (c :: rest).drop kw.length
        let ws := after.takeWhile isWS
        let word := (after.dropWhile isWS).takeWhile isWordChar
        if ws ≠ [] ∧ word ≠ [] then some (String.mk word) else none
      else none)
    with
    | some w => some w
    | none => kwSearch kw rest

/-- `re.findall(r'\b([a-z_]\w*)\s*(?:\(|:|\{)', code, re.IGNORECASE)`:
scan with a word-boundary flag; a candidate starts at a letter or underscore
not preceded by a word character, its word run must be followed (after
optional whitespace) by `(`, `:` or `{`; matches are non-overlapping and a
failed candidate resumes after its word run (no earlier start can match). -/
def find_fields_go : Nat → Bool → List Char → List String
  | 0, _, _ => []
  | _, _, [] => []
  | fuel + 1, prevWord, c :: rest =>
    if !prevWord && (c.isAlpha || c = '_') then
      let w := c :: rest.takeWhile isWordChar
      let afterW := rest.dropWhile isWordChar
      match afterW.dropWhile isWS with
      | d :: rest2 =>
        if d = '(' || d = ':' || d = '{' then
          String.mk w :: find_fields_go fuel false rest2
        else find_fields_go fuel true afterW
      | [] => find_fields_go fuel true afterW
    else find_fields_go fuel (isWordChar c) rest

def find_fields (prevWord : Bool) (l : List Char) : List String :=
  find_fields_go l.length prevWord l

/-- `parser.extract_fields`: matches of the field regex, deduplicated
(`list(set(..))`, modelled first-occurrence) and capped.  The scan is
fuel-bounded as above: every recursive step strictly shortens the input. -/
def extract_fields (code : String) : List String :=
  (dedup_first (find_fields false code.toList)).take MAX_FIELDS_PER_ELEMENT

/-- `re.findall(r'\$(\w+)\s*:', code)` (fuel-bounded as above). -/
def find_params_go : Nat → List Char → List String
  | 0, _ => []
  | _, [] => []
  | fuel + 1, c :: rest =>
    if c = '$' then
      let w := rest.takeWhile isWordChar
      let afterW := rest.dropWhile isWordChar
      match w, afterW.dropWhile isWS with
      | _ :: _, ':' :: rest2 => String.mk w :: find_params_go fuel rest2
      | _, _ => find_params_go fuel rest
    else find_params_go fuel rest

def find_params (l : List Char) : List String :=
  find_params_go l.length l

/-- `parser.extract_parameters`. -/
def extract_parameters (code : String) : List String :=
  dedup_first (find_params code.toList)

/-- `parser.extract_graphql_elements`: four independent pattern searches over
the code body, in source order query / mutation / type / interface; each hit
yields one element (parameters only for query and mutation, matching the
constructor calls in the source). -/
def extract_graphql_elements (code : String) (doc_id : String) :
    List GraphQLElement :=
  let cs := code.toList
  let q :=
    match kwSearch "query".toList cs with
    | some name =>
      let fields := extract_fields code
      let parameters := extract_parameters code
      [{ document_id := doc_id, element_type := "query", name := name,
         fields := fields, parameters := parameters, return_type := none,
         description := none,
         searchable_text :=
           "query " ++ name ++ " " ++ join_sp fields ++ " " ++ join_sp parameters }]
    | none => []
  let m :=
    match kwSearch "mutation".toList cs with
    | some name =>
      let fields := extract_fields code
      let parameters := extract_parameters code
      [{ document_id := doc_id, element_type := "mutation", name := name,
         fields := fields, parameters := parameters, return_type := none,
         description := none,
         searchable_text :=
           "mutation " ++ name ++ " " ++ join_sp fields ++ " " ++ join_sp parameters }]
    | none => []
  let t :=
    match kwSearch "type".toList cs with
    | some name =>
      let fields := extract_fields code
      [{ document_id := doc_id, element_type := "type", name := name,
         fields := fields, parameters := [], return_type := none,
         description := none,
         searchable_text := "type " ++ name ++ " " ++ join_sp fields }]
    | none => []
  let itf :=
    match kwSearch "interface".toList cs with
    | some name =>
      let fields := extract_fields code
      [{ document_id := doc_id, element_type := "interface", name := name,
         fields := fields, parameters := [], return_type := none,
         description := none,
         searchable_text := "interface " ++ name ++ " " ++ join_sp fields }]
    | none => []
  q ++ m ++ t ++ itf

-- `parser.MarkdownDocParser.parse_file` over one source file.

/-- One markdown file as the parser receives it: the path segments relative
to the documentation root, the front-matter fields already separated by the
(external) `frontmatter` library — `title` / `description` when present, and
`keywords` normalised to a list as in the source (`isinstance(str)` wraps a
bare string) — the file's mtime, and the body with front matter stripped. -/
structure MdFile where
  parts : List String
  fm_title : Option String
  fm_description : Option String
  fm_keywords : List String
  mtime : Nat
  content : String
deriving DecidableEq

/-- `str(file_path.relative_to(docs_root))`. -/
def rel_path_of (parts : List String) : String :=
  String.intercalate "/" parts

/-- `parser.parse_file`.  The title falls back from the front-matter field
to the first header and then to the relative path; the `or rel_path`
coalescing in the source is by truthiness, so an *empty* first header also
falls through to the path. -/
def parse_file (f : MdFile) : Document :=
  let rel_path := rel_path_of f.parts
  let doc_id := rel_path
  let cs := extract_category_from_path f.parts
  let content_type := determine_content_type cs.1 rel_path
  let title :=
    match f.fm_title with
    | some t => t
    | none =>
      match extract_first_header f.content with
      | some h => if h = "" then rel_path else h
      | none => rel_path
  let headers := extract_headers f.content
  let searchable_text :=
    build_searchable_text title f.fm_description f.content f.fm_keywords headers
  { id := doc_id, file_path := rel_path, title := title,
    description := f.fm_description, keywords := f.fm_keywords,
    category := cs.1, subcategory := cs.2, content_type := content_type,
    searchable_text := searchable_text, headers := headers,
    last_modified := f.mtime, content_md := f.content }

/-- `parser.parse_all`: every file yields its Document, its CodeBlocks, and
the GraphQLElements of its graphql-tagged blocks, concatenated in file order.
(The per-file `try/except` of the source is vacuous here: the modelled
parse is total.) -/
def parse_all (files : List MdFile) :
    List Document × List CodeBlock × List GraphQLElement :=
  let documents := files.map parse_file
  let all_code_blocks :=
    documents.flatMap (fun d => extract_code_blocks d.content_md d.id)
  let all_graphql_elements :=
    documents.flatMap (fun d =>
      ((extract_code_blocks d.content_md d.id).filter
        (fun b => b.language = "graphql")).flatMap
        (fun b => extract_graphql_elements b.code d.id))
  (documents, all_code_blocks, all_graphql_elements)

-- Query layer (`server.py`).  The documents table is modelled as the list of
-- `Document` rows (the stored record serialises keywords/headers as JSON and
-- the timestamp as ISO text; those are renderings of the same fields).

/-- `" OR ".join(f"({q})" for q in queries)` in `server.search_documentation`. -/
def combined_query (queries : List String) : String :=
  String.intercalate " OR " (queries.map (fun q => "(" ++ q ++ ")"))

/-- One in-process filter step of `server.search_documentation` over a string
column (`if category: results = [r for r in results if r['category'] == category]`;
Python truthiness skips both `None` and the empty string). -/
def apply_str_filter (v : Option String) (proj : Document → String)
    (l : List Document) : List Document :=
  match v with
  | some s => if s = "" then l else l.filter (fun r => proj r = s)
  | none => l

/-- Same for a nullable column (`r.get('subcategory') == subcategory`:
a NULL cell never equals a non-empty filter string). -/
def apply_opt_filter (v : Option String) (proj : Document → Option String)
    (l : List Document) : List Document :=
  match v with
  | some s => if s = "" then l else l.filter (fun r => proj r = some s)
  | none => l

/-- `server.search_documentation`, result-set level.  `fts` is the full-text
engine (`db["documents"].search`), abstract except for its `limit=` argument,
modelled by the `take`; the three filters are applied in-process afterwards
and the list is truncated to `DB_TOP_K` at the end. -/
def search_documentation (fts : String → List Document) (queries : List String)
    (category subcategory content_type : Option String) : List Document :=
  let results := (fts (combined_query queries)).take
    (DB_TOP_K * SEARCH_RESULT_MULTIPLIER)
  let results := apply_str_filter category (fun r => r.category) results
  let results := apply_opt_filter subcategory (fun r => r.subcategory) results
  let results := apply_str_filter content_type (fun r => r.content_type) results
  results.take DB_TOP_K

/-- `json.dumps(keywords)` as stored in the `keywords_json` column
(separator `", "`; the keyword strings in play need no escaping). -/
def keywords_json (ks : List String) : String :=
  "[" ++ String.intercalate ", " (ks.map (fun k => "\"" ++ k ++ "\"")) ++ "]"

/-- SQLite `LIKE '%kw%'` (ASCII case-insensitive substring test). -/
def likeContains (hay kw : String) : Bool :=
  kw = "" || containsSeq (toLowerChars kw.toList) (toLowerChars hay.toList)

/-- `server.get_document` formatting branch (found case); display only. -/
def format_document (doc : Document) : String :=
  let keywords_str :=
    if doc.keywords.isEmpty then "None" else String.intercalate ", " doc.keywords
  let base :=
    ["# " ++ doc.title, "",
     "**Path:** " ++ doc.file_path,
     "**Category:** " ++ doc.category ++ "/" ++ (doc.subcategory.getD "None"),
     "**Type:** " ++ doc.content_type,
     "**Keywords:** " ++ keywords_str, ""]
  let desc :=
    match doc.description with
    | some d => if d = "" then [] else ["**Description:** " ++ d, ""]
    | none => []
  String.intercalate "\n" (base ++ desc ++ ["---", "", doc.content_md])

/-- `server.get_document`: first row with the given `file_path`, or the
not-found guidance message — returned, not raised (`except StopIteration`). -/
def get_document (docs : List Document) (file_path : String) : String :=
  match docs.find? (fun d => d.file_path = file_path) with
  | none =>
    "Document not found: " ++ file_path ++
      "\n\nTip: Use search_documentation to find the correct file path."
  | some doc => format_document doc

-- `server.get_related_documents`.

/-- SQL `=` between two nullable text values: true only when both are
non-NULL and equal (a NULL comparison is never true). -/
def sql_eq_nullable : Option String → Option String → Bool
  | some a, some b => a = b
  | _, _ => false

/-- Branch 1: `SELECT * FROM documents WHERE category = ? AND subcategory = ?
AND file_path != ? LIMIT 5` with the source document's values bound. -/
def related_by_category (docs : List Document) (src : Document)
    (file_path : String) : List Document :=
  (docs.filter (fun d =>
    d.category = src.category &&
    sql_eq_nullable d.subcategory src.subcategory &&
    d.file_path ≠ file_path)).take 5

/-- Branch 2: for the first three source keywords (`list(set(..))[:3]`,
set order modelled first-occurrence), `keywords_json LIKE '%kw%' AND
file_path != ? LIMIT 3` each, concatenated. -/
def related_by_keywords (docs : List Document) (src : Document)
    (file_path : String) : List Document :=
  ((dedup_first src.keywords).take 3).flatMap (fun kw =>
    (docs.filter (fun d =>
      likeContains (keywords_json d.keywords) kw &&
      d.file_path ≠ file_path)).take 3)

/-- The `seen`-set loop of `server.get_related_documents`: keep the first
occurrence of each file path. -/
def dedup_by_path : List Document → List String → List Document
  | [], _ => []
  | d :: ds, seen =>
    if d.file_path ∈ seen then dedup_by_path ds seen
    else d :: dedup_by_path ds (d.file_path :: seen)

/-- `relationship = "Same category" if doc['category'] == source_doc['category']
else "Similar content"` (note: decided by category equality, not by branch). -/
def relationship_label (src d : Document) : String :=
  if d.category = src.category then "Same category" else "Similar content"

/-- The combined, deduplicated, capped related list. -/
def get_related_list (docs : List Document) (src : Document)
    (file_path : String) : List Document :=
  (dedup_by_path
    (related_by_category docs src file_path ++
      related_by_keywords docs src file_path) []).take 5

/-- `server.get_related_documents`, result-set level: `none` models the
"Document not found" return; otherwise each related document is paired with
its displayed relationship label. -/
def get_related_documents (docs : List Document) (file_path : String) :
    Option (List (Document × String)) :=
  match docs.find? (fun d => d.file_path = file_path) with
  | none => none
  | some src =>
    some ((get_related_list docs src file_path).map
      (fun d => (d, relationship_label src d)))

-- Ingestion coordinator (`ingest.py`).

/-- `datetime.fromtimestamp(t, tz=utc).isoformat()`: an injective rendering
of the timestamp; the coordinator only ever compares these strings for
equality, so the exact format is immaterial. -/
def mtime_iso (t : Nat) : String := toString t

/-- The singleton `metadata` row (`key = "last_ingestion"`). -/
structure MetadataRecord where
  docs_directory_mtime : String
  total_files : Nat
  ingestion_time : String
deriving DecidableEq

/-- The SQLite store: which tables exist, the metadata row (`none` covers
both a missing table row and a `get` that raises), and the three entity
tables. -/
structure Store where
  hasMetadataTable : Bool
  hasDocumentsTable : Bool
  hasCodeBlocksTable : Bool
  hasElementsTable : Bool
  metadata : Option MetadataRecord
  documents : List Document
  code_blocks : List CodeBlock
  graphql_elements : List GraphQLElement
deriving DecidableEq

/-- The documentation root as the coordinator sees it: whether the directory
exists, and the `.md` files below it. -/
structure FS where
  rootExists : Bool
  mdFiles : List MdFile
deriving DecidableEq

/-- `max((f.stat().st_mtime for f in docs_dir.rglob("*.md")), default=0)`. -/
def latest_mtime (fs : FS) : Nat :=
  (fs.mdFiles.map (fun f => f.mtime)).foldr max 0

/-- The ISO rendering of `latest_mtime` used by `should_reingest` and
`update_metadata`. -/
def latest_mtime_iso (fs : FS) : String := mtime_iso (latest_mtime fs)

/-- `ingest.should_reingest`: missing root ⇒ `False`; missing metadata table
or row ⇒ `True`; otherwise re-ingest iff the stored ISO string differs from
the recomputed one. -/
def should_reingest (store : Store) (fs : FS) : Bool :=
  if !fs.rootExists then false
  else if !store.hasMetadataTable then true
  else
    match store.metadata with
    | none => true
    | some m => !(m.docs_directory_mtime = latest_mtime_iso fs)

/-- `ingest.create_tables`: idempotent creation of the four tables (and the
FTS indexes, which live inside the `documents` / `graphql_elements` tables'
search capability and carry no separate state here). -/
def create_tables (store : Store) : Store :=
  { store with hasMetadataTable := true, hasDocumentsTable := true,
               hasCodeBlocksTable := true, hasElementsTable := true }

/-- `ingest.update_metadata`: recompute the maximum mtime and upsert the
singleton row. -/
def update_metadata (store : Store) (fs : FS) (total_files : Nat)
    (now : String) : Store :=
  { store with metadata := some (MetadataRecord.mk (latest_mtime_iso fs) total_files now) }

/-- Fault injection for `ingest_graphql_docs`: an exception raised during
schema creation (`create_tables`), parsing (`walk_directory`/`parse_all`) or
bulk insertion (`insert_all`).  The model raises at the start of the faulty
step; the source can raise anywhere inside it, but every such point leaves
the metadata row equally untouched, which is all the claims consume. -/
structure Faults where
  createSchema : Bool
  parse : Bool
  insert : Bool
deriving DecidableEq

/-- No injected faults. -/
def noFaults : Faults := ⟨false, false, false⟩

/-- Whether the run returned normally or propagated an exception. -/
inductive Outcome
  | ok
  | raised
deriving DecidableEq

/-- `ingest.ingest_graphql_docs` (with `ingest_data` inlined in source
order): skip when `should_reingest` is false; create tables; parse; clear
the three entity tables (code blocks, elements, documents); bulk insert;
update metadata.  Returns the resulting store and the run's outcome. -/
def ingest_graphql_docs (f : Faults) (now : String) (store : Store)
    (fs : FS) : Store × Outcome :=
  if !should_reingest store fs then (store, Outcome.ok)
  else
    let s1 := create_tables store
    if f.createSchema then (s1, Outcome.raised)
    else if f.parse then (s1, Outcome.raised)
    else
      let parsed := parse_all fs.mdFiles
      let total_files := fs.mdFiles.length
      let s2 := { s1 with code_blocks := [], graphql_elements := [],
                          documents := [] }
      if f.insert then (s2, Outcome.raised)
      else
        let s3 := { s2 with documents := parsed.1,
                            code_blocks := parsed.2.1,
                            graphql_elements := parsed.2.2 }
        (update_metadata s3 fs total_files now, Outcome.ok)

-- Theorems.

theorem mem_of_apply_str_filter {v : Option String} {proj : Document → String}
    {l : List Document} {d : Document} (h : d ∈ apply_str_filter v proj l) :
    d ∈ l := by
  cases v with
  | none => exact h
  | some s =>
    by_cases hs : s = ""
    · simpa [apply_str_filter, hs] using h
    · simp [apply_str_filter, hs, List.mem_filter] at h
      exact h.1

theorem mem_of_apply_opt_filter {v : Option String}
    {proj : Document → Option String} {l : List Document} {d : Document}
    (h : d ∈ apply_opt_filter v proj l) : d ∈ l := by
  cases v with
  | none => exact h
  | some s =>
    by_cases hs : s = ""
    · simpa [apply_opt_filter, hs] using h
    · simp [apply_opt_filter, hs, List.mem_filter] at h
      exact h.1

theorem apply_str_filter_eq {s : String} {proj : Document → String}
    {l : List Document} {d : Document} (hs : s ≠ "")
    (h : d ∈ apply_str_filter (some s) proj l) : proj d = s := by
  simp [apply_str_filter, hs, List.mem_filter] at h
  exact h.2

/-- **C1.**  Keyword search with a non-empty query list and a (non-empty)
category filter only returns documents of that category, and never more than
`DB_TOP_K` of them — for every raw hit list the full-text engine may produce,
in particular one with more than `DB_TOP_K` matching rows. -/
theorem search_documentation_category_filtered
    (fts : String → List Document) (queries : List String) (c : String)
    (subcategory content_type : Option String)
    (hq : queries ≠ []) (hc : c ≠ "") :
    (∀ d ∈ search_documentation fts queries (some c) subcategory content_type,
        d.category = c) ∧
    (search_documentation fts queries (some c) subcategory content_type).length
        ≤ DB_TOP_K := by
  constructor
  · intro d hd
    unfold search_documentation at hd
    have h1 := List.mem_of_mem_take hd
    have h2 := mem_of_apply_str_filter h1
    have h3 := mem_of_apply_opt_filter h2
    exact apply_str_filter_eq hc h3
  · unfold search_documentation
    simp only [List.length_take]
    omega

/-- Fixture: a raw full-text hit list of twelve rows, seven of them in
category `schema`, so that the category filter passes more than `DB_TOP_K`
rows and the final truncation must bite. -/
def c1_fixture_doc (p c : String) : Document :=
  { id := p, file_path := p, title := p, description := none, keywords := [],
    category := c, subcategory := none, content_type := "guide",
    searchable_text := p, headers := [], last_modified := 0, content_md := "" }

def c1_fts : String → List Document := fun _ =>
  [c1_fixture_doc "a1" "schema", c1_fixture_doc "a2" "usage",
   c1_fixture_doc "a3" "schema", c1_fixture_doc "a4" "schema",
   c1_fixture_doc "a5" "usage", c1_fixture_doc "a6" "schema",
   c1_fixture_doc "a7" "schema", c1_fixture_doc "a8" "usage",
   c1_fixture_doc "a9" "schema", c1_fixture_doc "a10" "schema",
   c1_fixture_doc "a11" "usage", c1_fixture_doc "a12" "usage"]

theorem search_documentation_category_filtered_witness :
    (["product", "cart"] : List String) ≠ [] ∧ ("schema" : String) ≠ "" ∧
    ((∀ d ∈ search_documentation c1_fts ["product", "cart"] (some "schema")
          none none, d.category = "schema") ∧
      (search_documentation c1_fts ["product", "cart"] (some "schema")
          none none).length ≤ DB_TOP_K) :=
  ⟨by decide, by decide,
    search_documentation_category_filtered c1_fts ["product", "cart"] "schema"
      none none (by decide) (by decide)⟩

theorem isPrefixOf_append_of : ∀ (n l r : List Char),
    n.isPrefixOf l = true → n.isPrefixOf (l ++ r) = true := by
  intro n
  induction n with
  | nil => intro l r _; simp [List.isPrefixOf]
  | cons a as ih =>
    intro l r h
    cases l with
    | nil => simp [List.isPrefixOf] at h
    | cons b bs =>
      simp only [List.cons_append, List.isPrefixOf, Bool.and_eq_true] at h ⊢
      exact ⟨h.1, ih bs r h.2⟩

theorem containsSeq_of_isPrefixOf {n l : List Char}
    (h : n.isPrefixOf l = true) : containsSeq n l = true := by
  cases l with
  | nil =>
    cases n with
    | nil => simp [containsSeq]
    | cons a as => simp [List.isPrefixOf] at h
  | cons c rest =>
    simp only [containsSeq, Bool.or_eq_true]
    exact Or.inl h

theorem containsSeq_append_right : ∀ (n l r : List Char),
    containsSeq n r = true → containsSeq n (l ++ r) = true := by
  intro n l r h
  induction l with
  | nil => simpa using h
  | cons c cl ih =>
    simp only [List.cons_append, containsSeq, Bool.or_eq_true]
    exact Or.inr ih

/-- **C8.**  Requesting a document whose path is not in the documents table
yields the "Document not found" guidance string pointing at
`search_documentation`.  (`get_document` is a total function of the store:
the no-match case is an ordinary return value — the source catches the
`StopIteration` of the empty cursor — not an exception.) -/
theorem get_document_missing_returns_message
    (docs : List Document) (fp : String)
    (h : ∀ d ∈ docs, d.file_path ≠ fp) :
    containsSeq "Document not found".toList (get_document docs fp).toList
        = true ∧
    containsSeq "search_documentation".toList (get_document docs fp).toList
        = true := by
  have hf : docs.find? (fun d => d.file_path = fp) = none := by
    rw [List.find?_eq_none]
    intro d hd
    simp [h d hd]
  rw [get_document, hf]
  have hsplit :
      ("Document not found: " ++ fp ++
        "\n\nTip: Use search_documentation to find the correct file path.").toList
      = "Document not found: ".toList ++
        (fp.toList ++
          "\n\nTip: Use search_documentation to find the correct file path.".toList) := by
    show (("Document not found: " ++ fp) ++ _).data = _
    rw [String.data_append, String.data_append]
    simp [String.toList, List.append_assoc]
  constructor
  · rw [hsplit]
    exact containsSeq_of_isPrefixOf
      (isPrefixOf_append_of _ "Document not found: ".toList _ (by decide))
  · rw [hsplit]
    apply containsSeq_append_right
    apply containsSeq_append_right
    decide

theorem get_document_missing_returns_message_witness :
    (∀ d ∈ ([] : List Document), d.file_path ≠ "missing.md") ∧
    (containsSeq "Document not found".toList
        (get_document [] "missing.md").toList = true ∧
      containsSeq "search_documentation".toList
        (get_document [] "missing.md").toList = true) :=
  ⟨by simp,
    get_document_missing_returns_message [] "missing.md" (by simp)⟩

theorem dedup_by_path_sublist : ∀ (l : List Document) (seen : List String),
    (dedup_by_path l seen).Sublist l := by
  intro l
  induction l with
  | nil => intro seen; simp [dedup_by_path]
  | cons d ds ih =>
    intro seen
    rw [dedup_by_path]
    by_cases hm : d.file_path ∈ seen
    · simp only [hm, if_pos]
      exact (ih seen).cons d
    · simp only [hm, if_neg, not_false_iff]
      exact (ih (d.file_path :: seen)).cons₂ d

theorem dedup_by_path_not_seen : ∀ (l : List Document) (seen : List String)
    (d : Document), d ∈ dedup_by_path l seen → d.file_path ∉ seen := by
  intro l
  induction l with
  | nil => intro seen d h; simp [dedup_by_path] at h
  | cons e ds ih =>
    intro seen d h
    rw [dedup_by_path] at h
    by_cases hm : e.file_path ∈ seen
    · simp only [hm, if_pos] at h
      exact ih seen d h
    · simp only [hm, if_neg, not_false_iff, List.mem_cons] at h
      rcases h with h | h
      · subst h; exact hm
      · have := ih _ d h
        intro hc
        exact this (List.mem_cons_of_mem _ hc)

theorem dedup_by_path_nodup : ∀ (l : List Document) (seen : List String),
    ((dedup_by_path l seen).map (fun d => d.file_path)).Nodup := by
  intro l
  induction l with
  | nil => intro seen; simp [dedup_by_path]
  | cons e ds ih =>
    intro seen
    rw [dedup_by_path]
    by_cases hm : e.file_path ∈ seen
    · simp only [hm, if_pos]
      exact ih seen
    · simp only [hm, if_neg, not_false_iff, List.map_cons]
      refine List.Nodup.cons ?_ (ih (e.file_path :: seen))
      intro hc
      rcases List.mem_map.mp hc with ⟨x, hx, hxe⟩
      have := dedup_by_path_not_seen _ _ x hx
      exact this (hxe ▸ List.mem_cons_self _ _)

theorem mem_related_branches_ne {docs : List Document} {src : Document}
    {fp : String} {d : Document}
    (h : d ∈ related_by_category docs src fp ++ related_by_keywords docs src fp) :
    d.file_path ≠ fp := by
  rcases List.mem_append.mp h with h | h
  · have := List.mem_of_mem_take (by simpa [related_by_category] using h)
    simp only [List.mem_filter, Bool.and_eq_true, Bool.not_eq_true',
      decide_eq_false_iff_not] at this
    exact this.2.2
  · rcases List.mem_flatMap.mp (by simpa [related_by_keywords] using h)
      with ⟨kw, _, hmem⟩
    have := List.mem_of_mem_take hmem
    simp only [List.mem_filter, Bool.and_eq_true, Bool.not_eq_true',
      decide_eq_false_iff_not] at this
    exact this.2.2

theorem map_fst_pair {α β : Type} (f : α → β) (l : List α) :
    (l.map (fun d => (d, f d))).map (fun p => p.1) = l := by
  induction l with
  | nil => rfl
  | cons a rest ih => simp [ih]

/-- **C5.**  For every store and source path present in it, the related-
document list never contains the source itself, never repeats a file path,
has at most 5 entries, and is (order preserved) a selection from the
category branch followed by the keyword branch. -/
theorem get_related_documents_no_self_no_dup
    (docs : List Document) (fp : String) (src : Document)
    (rel : List (Document × String))
    (hsrc : docs.find? (fun d => d.file_path = fp) = some src)
    (h : get_related_documents docs fp = some rel) :
    (∀ p ∈ rel, p.1.file_path ≠ fp) ∧
    ((rel.map (fun p => p.1.file_path)).Nodup) ∧
    rel.length ≤ 5 ∧
    (rel.map (fun p => p.1)).Sublist
      (related_by_category docs src fp ++ related_by_keywords docs src fp) := by
  have heq : get_related_documents docs fp
      = some ((get_related_list docs src fp).map
          (fun d => (d, relationship_label src d))) := by
    unfold get_related_documents
    rw [hsrc]
  rw [heq, Option.some.injEq] at h
  have hfst : rel.map (fun p => p.1) = get_related_list docs src fp := by
    rw [← h]
    exact map_fst_pair _ _
  have hsub1 : (get_related_list docs src fp).Sublist
      (related_by_category docs src fp ++ related_by_keywords docs src fp) :=
    (List.take_sublist _ _).trans (dedup_by_path_sublist _ _)
  refine ⟨?_, ?_, ?_, hfst ▸ hsub1⟩
  · intro p hp
    have : p.1 ∈ rel.map (fun p => p.1) := List.mem_map_of_mem _ hp
    rw [hfst] at this
    exact mem_related_branches_ne (hsub1.subset this)
  · have hpath : rel.map (fun p => p.1.file_path)
        = (rel.map (fun p => p.1)).map (fun d => d.file_path) := by
      rw [List.map_map]; rfl
    rw [hpath, hfst]
    have hsub2 : ((get_related_list docs src fp).map (fun d => d.file_path)).Sublist
        ((dedup_by_path (related_by_category docs src fp ++
          related_by_keywords docs src fp) []).map (fun d => d.file_path)) :=
      (List.take_sublist _ _).map _
    exact hsub2.nodup (dedup_by_path_nodup _ _)
  · have : rel.length = (get_related_list docs src fp).length := by
      rw [← h, List.length_map]
    rw [this, get_related_list]
    simp only [List.length_take]
    omega

/-- Fixture for the C5 witness: a source document plus three siblings. -/
def c5_doc (p c : String) (s : Option String) (kw : List String) : Document :=
  { id := p, file_path := p, title := p, description := none, keywords := kw,
    category := c, subcategory := s, content_type := "guide",
    searchable_text := p, headers := [], last_modified := 0, content_md := "" }

def c5_src_doc : Document :=
  c5_doc "usage/cart/a.md" "usage" (some "cart") ["cart"]

def c5_docs : List Document :=
  [c5_src_doc,
   c5_doc "usage/cart/b.md" "usage" (some "cart") ["cart"],
   c5_doc "usage/cart/c.md" "usage" (some "cart") ["cart", "checkout"],
   c5_doc "develop/x.md" "develop" none ["cart"]]

def c5_rel : List (Document × String) :=
  [(c5_doc "usage/cart/b.md" "usage" (some "cart") ["cart"], "Same category"),
   (c5_doc "usage/cart/c.md" "usage" (some "cart") ["cart", "checkout"],
     "Same category"),
   (c5_doc "develop/x.md" "develop" none ["cart"], "Similar content")]

theorem get_related_documents_no_self_no_dup_witness :
    (∀ p ∈ c5_rel, p.1.file_path ≠ "usage/cart/a.md") ∧
    ((c5_rel.map (fun p => p.1.file_path)).Nodup) ∧
    c5_rel.length ≤ 5 ∧
    (c5_rel.map (fun p => p.1)).Sublist
      (related_by_category c5_docs c5_src_doc "usage/cart/a.md" ++
        related_by_keywords c5_docs c5_src_doc "usage/cart/a.md") :=
  get_related_documents_no_self_no_dup c5_docs "usage/cart/a.md" c5_src_doc
    c5_rel (by decide) (by decide)

/-- Fixture refuting C6: the source has subcategory `products`, the other
document subcategory `cart` — so the category branch is empty and the other
document is reachable *only* through the shared keyword `tax` — yet both
share the category `schema`. -/
def c6_src : Document :=
  { id := "schema/products/a.md", file_path := "schema/products/a.md",
    title := "A", description := none, keywords := ["tax"],
    category := "schema", subcategory := some "products",
    content_type := "schema", searchable_text := "A", headers := [],
    last_modified := 0, content_md := "" }

def c6_other : Document :=
  { id := "schema/cart/b.md", file_path := "schema/cart/b.md",
    title := "B", description := none, keywords := ["tax"],
    category := "schema", subcategory := some "cart",
    content_type := "schema", searchable_text := "B", headers := [],
    last_modified := 0, content_md := "" }

def c6_docs : List Document := [c6_src, c6_other]

/-- **C6, counterexample.**  `schema/cart/b.md` is produced only by the
keyword branch (the category branch is empty), yet its label is
"Same category", not "Similar content": the source labels by category
equality, not by producing branch. -/
theorem related_label_branch_counterexample :
    related_by_category c6_docs c6_src "schema/products/a.md" = [] ∧
    get_related_documents c6_docs "schema/products/a.md"
      = some [(c6_other, "Same category")] ∧
    "Same category" ≠ "Similar content" := by
  refine ⟨by decide, by decide, by decide⟩

/-- **C6, amended.**  Every related-document result is labeled
"Same category" exactly when its category equals the source document's
category (and "Similar content" otherwise), regardless of which branch
produced it. -/
theorem related_label_by_category_equality
    (docs : List Document) (fp : String) (src : Document)
    (rel : List (Document × String))
    (hsrc : docs.find? (fun d => d.file_path = fp) = some src)
    (h : get_related_documents docs fp = some rel) :
    ∀ p ∈ rel, p.2 = (if p.1.category = src.category
      then "Same category" else "Similar content") := by
  have heq : get_related_documents docs fp
      = some ((get_related_list docs src fp).map
          (fun d => (d, relationship_label src d))) := by
    unfold get_related_documents
    rw [hsrc]
  rw [heq, Option.some.injEq] at h
  intro p hp
  rw [← h] at hp
  rcases List.mem_map.mp hp with ⟨d, _, hd⟩
  rw [← hd]
  rfl

theorem related_label_by_category_equality_witness :
    (c6_other, "Same category").2
      = (if (c6_other, "Same category").1.category = c6_src.category
        then "Same category" else "Similar content") :=
  related_label_by_category_equality c6_docs "schema/products/a.md" c6_src
    [(c6_other, "Same category")] (by decide) (by decide)
    (c6_other, "Same category") (by decide)

/-- **C10.**  A path with fewer than three segments yields no subcategory;
and for a source document with NULL subcategory the category branch is empty
(SQL `subcategory = NULL` matches nothing), so every related result comes
from the keyword branch. -/
theorem related_null_subcategory_keyword_only
    (docs : List Document) (fp : String) (src : Document)
    (hsrc : docs.find? (fun d => d.file_path = fp) = some src)
    (hsub : src.subcategory = none) :
    (∀ parts : List String, parts.length < 3 →
        (extract_category_from_path parts).2 = none) ∧
    related_by_category docs src fp = [] ∧
    (∀ rel, get_related_documents docs fp = some rel →
      ∀ p ∈ rel, p.1 ∈ related_by_keywords docs src fp) := by
  have hcat : related_by_category docs src fp = [] := by
    unfold related_by_category
    have : docs.filter (fun d =>
        d.category = src.category &&
        sql_eq_nullable d.subcategory src.subcategory &&
        d.file_path ≠ fp) = [] := by
      rw [List.filter_eq_nil_iff]
      intro d _
      rw [hsub]
      cases hds : d.subcategory <;>
        simp [sql_eq_nullable, hds]
    rw [this]
    rfl
  refine ⟨?_, hcat, ?_⟩
  · intro parts hlen
    match parts with
    | [] => rfl
    | [_] => rfl
    | [_, _] => rfl
    | _ :: _ :: _ :: _ => simp at hlen; omega
  · intro rel h p hp
    have heq : get_related_documents docs fp
        = some ((get_related_list docs src fp).map
            (fun d => (d, relationship_label src d))) := by
      unfold get_related_documents
      rw [hsrc]
    rw [heq, Option.some.injEq] at h
    rw [← h] at hp
    rcases List.mem_map.mp hp with ⟨d, hd, hde⟩
    have hd2 : d ∈ related_by_category docs src fp ++
        related_by_keywords docs src fp :=
      ((List.take_sublist _ _).trans (dedup_by_path_sublist _ _)).subset hd
    rw [hcat, List.nil_append] at hd2
    have : p.1 = d := by rw [← hde]
    rw [this]
    exact hd2

/-- Fixture for the C10 witness: a root-level source (no subcategory) and a
keyword sibling. -/
def c10_src : Document :=
  { id := "index.md", file_path := "index.md", title := "I",
    description := none, keywords := ["cart"], category := "root",
    subcategory := none, content_type := "guide", searchable_text := "I",
    headers := [], last_modified := 0, content_md := "" }

def c10_other : Document :=
  { id := "usage/cart/a.md", file_path := "usage/cart/a.md", title := "C",
    description := none, keywords := ["cart"], category := "usage",
    subcategory := some "cart", content_type := "guide",
    searchable_text := "C", headers := [], last_modified := 0,
    content_md := "" }

def c10_docs : List Document := [c10_src, c10_other]

theorem related_null_subcategory_keyword_only_witness :
    (∀ parts : List String, parts.length < 3 →
        (extract_category_from_path parts).2 = none) ∧
    related_by_category c10_docs c10_src "index.md" = [] ∧
    (∀ rel, get_related_documents c10_docs "index.md" = some rel →
      ∀ p ∈ rel, p.1 ∈ related_by_keywords c10_docs c10_src "index.md") :=
  related_null_subcategory_keyword_only c10_docs "index.md" c10_src
    (by decide) (by decide)

theorem join_sp_head_exists (a : String) (rest : List String) :
    ∃ t, (join_sp ((a :: rest).filter (fun s => s ≠ ""))).data
      = a.data ++ t := by
  by_cases ha : a = ""
  · subst ha
    refine ⟨(join_sp (("" :: rest).filter (fun s => s ≠ ""))).data, ?_⟩
    have hd : ("" : String).data = [] := rfl
    rw [hd, List.nil_append]
  · have hcons : (a :: rest).filter (fun s => s ≠ "")
        = a :: rest.filter (fun s => s ≠ "") := by
      simp [List.filter, ha]
    rw [hcons]
    cases hM : rest.filter (fun s => s ≠ "") with
    | nil => exact ⟨[], by simp [join_sp]⟩
    | cons b bs =>
      refine ⟨(" " ++ join_sp (b :: bs)).data, ?_⟩
      show ((a ++ " ") ++ join_sp (b :: bs)).data = _
      simp [String.data_append, List.append_assoc]

/-- **C9.**  Every parsed document has a non-empty category (`"root"` for a
root-level file), a content type from the closed set
{schema, tutorial, guide, reference}, and a searchable text that starts with
(hence contains) the document's title.  The hypotheses state that the file
has a real relative path: at least one segment, none of them empty. -/
theorem parse_file_invariants (f : MdFile)
    (hne : f.parts ≠ []) (hseg : ∀ p ∈ f.parts, p ≠ "") :
    (parse_file f).category ≠ "" ∧
    (f.parts.length = 1 → (parse_file f).category = "root") ∧
    (parse_file f).content_type ∈
      (["schema", "tutorial", "guide", "reference"] : List String) ∧
    ∃ t, (parse_file f).searchable_text.data
      = (parse_file f).title.data ++ t := by
  refine ⟨?_, ?_, ?_, ?_⟩
  · have hcat : (parse_file f).category = (extract_category_from_path f.parts).1 :=
      rfl
    rw [hcat]
    match hp : f.parts with
    | [] => exact absurd hp hne
    | [a] => simp [extract_category_from_path]
    | [a, b] =>
      simpa [extract_category_from_path] using hseg a (by rw [hp]; simp)
    | a :: b :: c :: rest =>
      simpa [extract_category_from_path] using hseg a (by rw [hp]; simp)
  · intro h1
    have hcat : (parse_file f).category = (extract_category_from_path f.parts).1 :=
      rfl
    rw [hcat]
    match hp : f.parts with
    | [] => rw [hp] at h1; simp at h1
    | [a] => rfl
    | a :: b :: rest => rw [hp] at h1; simp at h1
  · have hct : (parse_file f).content_type
        = determine_content_type (extract_category_from_path f.parts).1
            (rel_path_of f.parts) := rfl
    rw [hct]
    unfold determine_content_type
    split_ifs <;> simp
  · have hst : (parse_file f).searchable_text
        = join_sp (((parse_file f).title ::
            (f.fm_description.toList ++ f.fm_keywords ++
              extract_headers f.content ++
              [clean_content f.content])).filter (fun s => s ≠ "")) := rfl
    rw [hst]
    exact join_sp_head_exists _ _

/-- Fixture for the C9 witness. -/
def c9_file : MdFile :=
  { parts := ["develop", "index.md"], fm_title := some "Welcome",
    fm_description := some "Intro", fm_keywords := ["graphql"], mtime := 7,
    content := "# Heading\n\nBody text" }

theorem parse_file_invariants_witness :
    (parse_file c9_file).category ≠ "" ∧
    (c9_file.parts.length = 1 → (parse_file c9_file).category = "root") ∧
    (parse_file c9_file).content_type ∈
      (["schema", "tutorial", "guide", "reference"] : List String) ∧
    ∃ t, (parse_file c9_file).searchable_text.data
      = (parse_file c9_file).title.data ++ t :=
  parse_file_invariants c9_file (by decide) (by decide)

theorem ingest_skip {f : Faults} {now : String} {store : Store} {fs : FS}
    (h : should_reingest store fs = false) :
    ingest_graphql_docs f now store fs = (store, Outcome.ok) := by
  unfold ingest_graphql_docs
  rw [h]
  rfl

theorem should_reingest_false_inv {store : Store} {fs : FS}
    (hr : fs.rootExists = true) (h : should_reingest store fs = false) :
    store.hasMetadataTable = true ∧
    ∃ m, store.metadata = some m ∧
      m.docs_directory_mtime = latest_mtime_iso fs := by
  unfold should_reingest at h
  rw [hr] at h
  by_cases hmt : store.hasMetadataTable
  · refine ⟨hmt, ?_⟩
    simp only [hmt] at h
    cases hmm : store.metadata with
    | none => rw [hmm] at h; simp at h
    | some m =>
      rw [hmm] at h
      simp only [Bool.not_eq_false', decide_eq_true_eq] at h
      simp at h
      exact ⟨m, rfl, h⟩
  · simp [hmt] at h

theorem should_reingest_eq_false {store : Store} {fs : FS} {m : MetadataRecord}
    (hr : fs.rootExists = true) (hmt : store.hasMetadataTable = true)
    (hmm : store.metadata = some m)
    (he : m.docs_directory_mtime = latest_mtime_iso fs) :
    should_reingest store fs = false := by
  unfold should_reingest
  rw [hr, hmt, hmm]
  simp [he]

theorem ingest_ok_metadata {f : Faults} {now : String} {store : Store}
    {fs : FS} (hs : should_reingest store fs = true)
    (hok : (ingest_graphql_docs f now store fs).2 = Outcome.ok) :
    (ingest_graphql_docs f now store fs).1.hasMetadataTable = true ∧
    (ingest_graphql_docs f now store fs).1.metadata
      = some (MetadataRecord.mk (latest_mtime_iso fs) fs.mdFiles.length now) := by
  unfold ingest_graphql_docs at hok ⊢
  rw [hs] at hok ⊢
  by_cases hc : f.createSchema
  · simp [hc] at hok
  · by_cases hp : f.parse
    · simp [hc, hp] at hok
    · by_cases hi : f.insert
      · simp [hc, hp, hi] at hok
      · simp [hc, hp, hi, update_metadata, create_tables]

/-- **C2.**  If one ingestion pass returns normally, a second pass against a
corpus whose maximum `.md` mtime is unchanged mutates nothing: the resulting
store is the same state, so its document, code-block and GraphQL-element
counts are unchanged.  (The skip compares the recomputed maximum mtime, as a
rendered timestamp string, with the stored metadata value and returns before
any delete or insert.) -/
theorem ingest_unchanged_corpus_idempotent
    (f f' : Faults) (now now' : String) (store : Store) (fs fs' : FS)
    (h1 : (ingest_graphql_docs f now store fs).2 = Outcome.ok)
    (hr : fs.rootExists = true) (hr' : fs'.rootExists = true)
    (hm : latest_mtime fs' = latest_mtime fs) :
    (ingest_graphql_docs f' now'
        (ingest_graphql_docs f now store fs).1 fs').1
      = (ingest_graphql_docs f now store fs).1 ∧
    (ingest_graphql_docs f' now'
        (ingest_graphql_docs f now store fs).1 fs').1.documents.length
      = (ingest_graphql_docs f now store fs).1.documents.length ∧
    (ingest_graphql_docs f' now'
        (ingest_graphql_docs f now store fs).1 fs').1.code_blocks.length
      = (ingest_graphql_docs f now store fs).1.code_blocks.length ∧
    (ingest_graphql_docs f' now'
        (ingest_graphql_docs f now store fs).1 fs').1.graphql_elements.length
      = (ingest_graphql_docs f now store fs).1.graphql_elements.length := by
  have hiso : latest_mtime_iso fs' = latest_mtime_iso fs := by
    unfold latest_mtime_iso
    rw [hm]
  have hs2 : should_reingest (ingest_graphql_docs f now store fs).1 fs'
      = false := by
    by_cases hs : should_reingest store fs
    · have hchar := ingest_ok_metadata hs h1
      exact should_reingest_eq_false hr' hchar.1 hchar.2 (by rw [hiso])
    · have hsf : should_reingest store fs = false := by
        simpa using hs
      have hinv := should_reingest_false_inv hr hsf
      rcases hinv.2 with ⟨m, hmm, hmt⟩
      rw [ingest_skip hsf]
      exact should_reingest_eq_false hr' hinv.1 hmm (by rw [hiso]; exact hmt)
  rw [ingest_skip hs2]
  exact ⟨rfl, rfl, rfl, rfl⟩

/-- Fixture for the C2 witness: an empty store and a one-file corpus. -/
def c2_file : MdFile :=
  { parts := ["usage", "index.md"], fm_title := some "T",
    fm_description := none, fm_keywords := [], mtime := 11,
    content := "Body" }

def c2_fs : FS := { rootExists := true, mdFiles := [c2_file] }

def c2_store : Store :=
  { hasMetadataTable := false, hasDocumentsTable := false,
    hasCodeBlocksTable := false, hasElementsTable := false,
    metadata := none, documents := [], code_blocks := [],
    graphql_elements := [] }

theorem ingest_unchanged_corpus_idempotent_witness :
    (ingest_graphql_docs noFaults "t2"
        (ingest_graphql_docs noFaults "t1" c2_store c2_fs).1 c2_fs).1
      = (ingest_graphql_docs noFaults "t1" c2_store c2_fs).1 ∧
    (ingest_graphql_docs noFaults "t2"
        (ingest_graphql_docs noFaults "t1" c2_store c2_fs).1 c2_fs).1.documents.length
      = (ingest_graphql_docs noFaults "t1" c2_store c2_fs).1.documents.length ∧
    (ingest_graphql_docs noFaults "t2"
        (ingest_graphql_docs noFaults "t1" c2_store c2_fs).1 c2_fs).1.code_blocks.length
      = (ingest_graphql_docs noFaults "t1" c2_store c2_fs).1.code_blocks.length ∧
    (ingest_graphql_docs noFaults "t2"
        (ingest_graphql_docs noFaults "t1" c2_store c2_fs).1 c2_fs).1.graphql_elements.length
      = (ingest_graphql_docs noFaults "t1" c2_store c2_fs).1.graphql_elements.length :=
  ingest_unchanged_corpus_idempotent noFaults noFaults "t1" "t2" c2_store
    c2_fs c2_fs (by decide) (by decide) (by decide) (by decide)

/-- **C3.**  (a) Any ingestion attempt that raises — during schema creation,
parsing or bulk insertion — leaves the metadata record exactly as it was
(`update_metadata` only runs after a normal `ingest_data` return); (b) when
the documentation root does not exist the whole store is left untouched:
nothing is created, deleted or inserted. -/
theorem ingest_exception_leaves_metadata
    : (∀ (f : Faults) (now : String) (store : Store) (fs : FS),
        (ingest_graphql_docs f now store fs).2 = Outcome.raised →
        (ingest_graphql_docs f now store fs).1.metadata = store.metadata) ∧
      (∀ (f : Faults) (now : String) (store : Store) (fs : FS),
        fs.rootExists = false →
        ingest_graphql_docs f now store fs = (store, Outcome.ok)) := by
  constructor
  · intro f now store fs h
    by_cases hs : should_reingest store fs
    · unfold ingest_graphql_docs at h ⊢
      rw [hs] at h ⊢
      by_cases hc : f.createSchema
      · simp [hc, create_tables]
      · by_cases hp : f.parse
        · simp [hc, hp, create_tables]
        · by_cases hi : f.insert
          · simp [hc, hp, hi, create_tables]
          · simp [hc, hp, hi] at h
    · have hsf : should_reingest store fs = false := by simpa using hs
      rw [ingest_skip hsf] at h
      simp at h
  · intro f now store fs h
    have hsf : should_reingest store fs = false := by
      unfold should_reingest
      rw [h]
      rfl
    exact ingest_skip hsf

/-- Fixture for the C3 witness: a store that forces a re-ingest, a fault in
schema creation, and a filesystem with a missing root. -/
def c3_fs_missing : FS := { rootExists := false, mdFiles := [] }

theorem ingest_exception_leaves_metadata_witness :
    ((ingest_graphql_docs ⟨true, false, false⟩ "t" c2_store c2_fs).1.metadata
      = c2_store.metadata) ∧
    (ingest_graphql_docs noFaults "t" c2_store c3_fs_missing
      = (c2_store, Outcome.ok)) :=
  ⟨ingest_exception_leaves_metadata.1 ⟨true, false, false⟩ "t" c2_store c2_fs
      (by decide),
   ingest_exception_leaves_metadata.2 noFaults "t" c2_store c3_fs_missing
      (by decide)⟩

/-- The corpus of the C4 scenario: the single file
`schema/products/queries/products.md`, front-matter title "Products Query",
body a single graphql-fenced block. -/
def c4_file : MdFile :=
  { parts := ["schema", "products", "queries", "products.md"],
    fm_title := some "Products Query", fm_description := none,
    fm_keywords := [], mtime := 100,
    content := "```graphql\nquery products { items { sku name } }\n```" }

/-- **C4, counterexample.**  The single extracted element is the query
`products`, but its fields list contains neither `"sku"` nor `"name"`: the
field regex `\b([a-z_]\w*)\s*(?:\(|:|\{)` only captures identifiers followed
by `(`, `:` or `{`, and the leaf fields `sku`/`name` are followed by a word
or `}`. -/
theorem products_scenario_fields_counterexample :
    (parse_all [c4_file]).2.2.map
        (fun e => (e.element_type, e.name,
          e.fields.contains "sku", e.fields.contains "name"))
      = [("query", "products", false, false)] := by
  decide

/-- **C4, amended.**  Ingesting the scenario corpus produces exactly one
Document (category "schema", subcategory "products", content type "schema",
title "Products Query"), exactly one CodeBlock (language "graphql"), and
exactly one SchemaElement (kind "query", name "products") whose fields list
is exactly `["products", "items"]` — it contains "items" (and the operation
name "products") but not the leaf fields "sku" and "name". -/
theorem products_scenario_parse_amended :
    (parse_all [c4_file]).1.map
        (fun d => (d.category, d.subcategory, d.content_type, d.title))
      = [("schema", some "products", "schema", "Products Query")] ∧
    (parse_all [c4_file]).2.1.map (fun b => b.language) = ["graphql"] ∧
    (parse_all [c4_file]).2.2.map (fun e => (e.element_type, e.name, e.fields))
      = [("query", "products", ["products", "items"])] := by
  refine ⟨by decide, by decide, by decide⟩

/-- **C7, counterexample.**  `extract_code_blocks` passes `start_line - 2` —
the index of the opening fence line itself, not of the line before it — to
`extract_context`, so on a block preceded by a blank line the context is
`some "```graphql"` (the fence line, always collected first since it is
non-empty and not a heading): the claim's "never contains the block's own
opening fence delimiter line" and "None when the block is immediately
preceded by a blank line" are both false.  The second conjunct shows the
companion divergence: even scanning from the line *above* the fence (index
1, the blank line), the loop skips blank lines while nothing has been
collected yet and returns the earlier paragraph, not `None`. -/
theorem extract_context_includes_fence_line :
    extract_code_blocks "Intro text\n\n```graphql\nquery { x }\n```" "d"
      = [{ document_id := "d", language := "graphql", code := "query { x }",
           context := some "```graphql", line_number := 4 }] ∧
    extract_context
        (splitLines ("Intro text\n\n```graphql\nquery { x }\n```").toList) 1
      = some "Intro text" := by
  refine ⟨by decide, by decide⟩

theorem context_scan_append : ∀ (lines : List (List Char)) (steps i : Nat)
    (acc : List String), ∃ pre, context_scan lines i steps acc = pre ++ acc := by
  intro lines steps
  induction steps with
  | zero => intro i acc; exact ⟨[], rfl⟩
  | succ steps ih =>
    intro i acc
    rw [context_scan]
    by_cases hc : strip (lines.getD i []) ≠ [] ∧
        (strip (lines.getD i [])).head? ≠ some '#'
    · rw [if_pos hc]
      rcases ih (i - 1) (String.mk (strip (lines.getD i [])) :: acc)
        with ⟨pre, hpre⟩
      exact ⟨pre ++ [String.mk (strip (lines.getD i []))], by
        rw [hpre, List.append_assoc, List.singleton_append]⟩
    · rw [if_neg hc]
      by_cases ha : acc ≠ []
      · rw [if_pos ha]; exact ⟨[], rfl⟩
      · rw [if_neg ha]; exact ih (i - 1) acc

theorem extract_context_at_fence (lines : List (List Char)) (i : Nat)
    (hf : isFenceLine (lines.getD i []) = true) :
    ∃ pre rest, extract_context lines i
      = some (join_sp (pre ++
          [String.mk (backtick :: backtick :: backtick :: rest)])) := by
  rcases hstrip : strip (lines.getD i []) with _ | ⟨a, _ | ⟨b, _ | ⟨c, rest0⟩⟩⟩
  · rw [isFenceLine, hstrip] at hf; simp at hf
  · rw [isFenceLine, hstrip] at hf; simp at hf
  · rw [isFenceLine, hstrip] at hf; simp at hf
  · rw [isFenceLine, hstrip] at hf
    simp only [Bool.and_eq_true, decide_eq_true_eq] at hf
    have ha : a = backtick := by tauto
    have hb2 : b = backtick := by tauto
    have hc2 : c = backtick := by tauto
    subst ha; subst hb2; subst hc2
    rcases context_scan_append lines (min 5 (i + 1) - 1) (i - 1)
        [String.mk (backtick :: backtick :: backtick :: rest0)]
      with ⟨pre, hpre⟩
    refine ⟨pre, rest0, ?_⟩
    unfold extract_context
    have hstep : min 5 (i + 1) = (min 5 (i + 1) - 1) + 1 := by omega
    rw [hstep, context_scan, hstrip]
    have hcond : (backtick :: backtick :: backtick :: rest0) ≠ [] ∧
        (backtick :: backtick :: backtick :: rest0).head? ≠ some '#' := by
      constructor
      · simp
      · simp only [List.head?_cons, ne_eq, Option.some.injEq]
        decide
    rw [if_pos hcond, hpre]
    have hne : (pre ++ [String.mk
        (backtick :: backtick :: backtick :: rest0)]).isEmpty = false := by
      simp
    simp only [hne, Bool.false_eq_true, if_false]

theorem extract_code_blocks_from_context_fence :
    ∀ (fuel : Nat) (lines : List (List Char)) (doc_id : String) (i : Nat)
      (b : CodeBlock), b ∈ extract_code_blocks_from lines doc_id fuel i →
      ∃ pre rest, b.context
        = some (join_sp (pre ++
            [String.mk (backtick :: backtick :: backtick :: rest)])) := by
  intro fuel
  induction fuel with
  | zero =>
    intro lines doc_id i b hb
    simp [extract_code_blocks_from] at hb
  | succ fuel ih =>
    intro lines doc_id i b hb
    rw [extract_code_blocks_from] at hb
    by_cases hlt : i < lines.length
    · by_cases hf : isFenceLine (lines.getD i []) = true
      · simp only [hlt, if_true, hf, List.mem_cons] at hb
        rcases hb with hb | hb
        · subst hb
          simp only
          rw [Nat.add_sub_cancel]
          exact extract_context_at_fence lines i hf
        · exact ih lines doc_id _ b hb
      · simp only [hlt, if_true, hf, Bool.false_eq_true, if_false] at hb
        exact ih lines doc_id _ b hb
    · simp only [hlt, if_false] at hb
      simp at hb

/-- **C7, amended.**  Every extracted code block's context is computed from
the index of the block's own opening fence line (`start_line - 2`), so it is
never `None` and its last space-joined segment is the stripped fence line —
a line starting with three backticks.  (Blank and heading lines above the
fence are skipped while nothing has been collected, and the scan stops at
the first blank or heading after collecting a line.) -/
theorem extract_code_blocks_context_ends_with_fence
    (markdown doc_id : String) :
    ∀ b ∈ extract_code_blocks markdown doc_id,
      ∃ pre rest, b.context
        = some (join_sp (pre ++
            [String.mk (backtick :: backtick :: backtick :: rest)])) := by
  intro b hb
  exact extract_code_blocks_from_context_fence
    (splitLines markdown.toList).length (splitLines markdown.toList)
    doc_id 0 b hb

/-- The block of the C7 witness corpus. -/
def c7_block : CodeBlock :=
  { document_id := "d", language := "graphql", code := "query { x }",
    context := some "```graphql", line_number := 4 }

theorem extract_code_blocks_context_ends_with_fence_witness :
    ∃ pre rest, c7_block.context
      = some (join_sp (pre ++
          [String.mk (backtick :: backtick :: backtick :: rest)])) :=
  extract_code_blocks_context_ends_with_fence
    "Intro text\n\n```graphql\nquery { x }\n```" "d" c7_block (by decide)
